import Mathlib

/-!
A verification development for the core services of the
MessyFilesOrganizingSummarizingSystem repository: the ingestion/dedup
pipeline (`backend/app/services/scanner.py`, `hash_service.py`), the
SavedView query compiler (`backend/app/services/savedview_service.py`)
and the rule engine (`backend/app/services/rules_engine.py`).

Python dynamic values are embedded as the inductive `PyVal`; dicts as
association lists.  Cryptographic hashes (blake3 / sha256) are modelled
as the exact byte sequence fed to the hasher: equal inputs genuinely
collide, and injectivity on distinct inputs stands in for collision
resistance.  Exceptions are modelled with `Option`; a caught exception
becomes the value the `except` branch returns.
-/

namespace MFOSS

/-- A dynamic (Python-style) value: None, int, str, or list.  Floats,
bools and datetimes are not exercised by any property checked here;
datetimes are representable as ints. -/
inductive PyVal where
  | none : PyVal
  | int : Int → PyVal
  | str : String → PyVal
  | list : List PyVal → PyVal
  deriving Repr

mutual

/-- Decidable equality for `PyVal` (hand-written: the deriving handler
does not support the nested `List PyVal`). -/
def pyDecEq : (a b : PyVal) → Decidable (a = b)
  | .none, .none => isTrue rfl
  | .none, .int _ => isFalse (fun h => PyVal.noConfusion h)
  | .none, .str _ => isFalse (fun h => PyVal.noConfusion h)
  | .none, .list _ => isFalse (fun h => PyVal.noConfusion h)
  | .int _, .none => isFalse (fun h => PyVal.noConfusion h)
  | .int a, .int b =>
    if h : a = b then isTrue (by rw [h])
    else isFalse (by intro hh; injection hh; contradiction)
  | .int _, .str _ => isFalse (fun h => PyVal.noConfusion h)
  | .int _, .list _ => isFalse (fun h => PyVal.noConfusion h)
  | .str _, .none => isFalse (fun h => PyVal.noConfusion h)
  | .str _, .int _ => isFalse (fun h => PyVal.noConfusion h)
  | .str a, .str b =>
    if h : a = b then isTrue (by rw [h])
    else isFalse (by intro hh; injection hh; contradiction)
  | .str _, .list _ => isFalse (fun h => PyVal.noConfusion h)
  | .list _, .none => isFalse (fun h => PyVal.noConfusion h)
  | .list _, .int _ => isFalse (fun h => PyVal.noConfusion h)
  | .list _, .str _ => isFalse (fun h => PyVal.noConfusion h)
  | .list a, .list b =>
    match pyDecEqList a b with
    | isTrue h => isTrue (by rw [h])
    | isFalse h => isFalse (by intro hh; injection hh; contradiction)

/-- Decidable equality for lists of `PyVal`. -/
def pyDecEqList : (a b : List PyVal) → Decidable (a = b)
  | [], [] => isTrue rfl
  | [], _ :: _ => isFalse (fun h => List.noConfusion h)
  | _ :: _, [] => isFalse (fun h => List.noConfusion h)
  | a :: as, b :: bs =>
    match pyDecEq a b with
    | isFalse h => isFalse (by intro hh; injection hh; contradiction)
    | isTrue h =>
      match pyDecEqList as bs with
      | isTrue h2 => isTrue (by rw [h, h2])
      | isFalse h2 => isFalse (by intro hh; injection hh; contradiction)

end

instance : DecidableEq PyVal := pyDecEq

/-- A Python dict with string keys, as an association list
(first binding wins, as in a dict there is at most one). -/
abbrev Record := List (String × PyVal)

/-- Python `d.get(k, default)`. -/
def rget (r : Record) (k : String) (d : PyVal) : PyVal :=
  match r.find? (fun p => p.1 == k) with
  | some p => p.2
  | Option.none => d

/-- Python truthiness on the embedded values: `None`, `0`, `""` and `[]`
are falsy. -/
def pyFalsy : PyVal → Bool
  | .none => true
  | .int n => n == 0
  | .str s => s == ""
  | .list l => l.isEmpty

mutual

/-- Python ordering comparison (`<`, `>`, `<=`, `>=`).  `Option.none`
models a raised `TypeError` (mixed-type ordering, ordering on `None`).
Ints and strings compare by the usual orders; lists lexicographically,
propagating a `TypeError` from incomparable elements. -/
def pyCmp : PyVal → PyVal → Option Ordering
  | .int a, .int b => some (compare a b)
  | .str a, .str b => some (compare a b)
  | .list a, .list b => pyCmpList a b
  | _, _ => Option.none

/-- Lexicographic comparison of Python lists (first non-equal pair
decides; a strict prefix is smaller). -/
def pyCmpList : List PyVal → List PyVal → Option Ordering
  | [], [] => some Ordering.eq
  | [], _ :: _ => some Ordering.lt
  | _ :: _, [] => some Ordering.gt
  | a :: as, b :: bs => if a == b then pyCmpList as bs else pyCmp a b

end

/-! Path helpers.  These model the CPython `pathlib.PurePath` accessors
used by the services (`.name`, `.suffix`, `.stem`) on POSIX-style paths
(separator `/`; the repository runs the scanner over plain string paths
and no claim exercises Windows drive syntax), and ASCII lowercasing for
`str.lower()` / SQLite `LOWER`. -/

/-- Boolean substring test on character lists (Python `in` between
strings), via the decidable `List.IsInfix`. -/
def isInfixL (needle hay : List Char) : Bool :=
  decide (needle <:+: hay)

/-- Lowercase a character list (`str.lower()` on the ASCII range). -/
def toLowerL (l : List Char) : List Char := l.map Char.toLower

/-- The final path component: everything after the last `/`
(CPython `PurePath.name` for paths without a trailing slash). -/
def baseNameL (l : List Char) : List Char :=
  (l.reverse.takeWhile (fun c => c != '/')).reverse

/-- String wrapper for `baseNameL`. -/
def baseName (s : String) : String := ⟨baseNameL s.data⟩

/-- Index of the last occurrence of `c`, if any (Python `str.rfind`). -/
def rfindIdx (l : List Char) (c : Char) : Option Nat :=
  match l.reverse.findIdx? (fun x => x == c) with
  | some j => some (l.length - 1 - j)
  | Option.none => Option.none

/-- CPython `PurePath.suffix`: writing `name` for the final component
and `i` for the position of its last dot, the suffix is `name[i:]`
(dot included) when `0 < i < len(name) - 1`, and `""` otherwise
(no dot, hidden-file leading dot, or trailing dot). -/
def pathSuffixL (l : List Char) : List Char :=
  let name := baseNameL l
  match rfindIdx name '.' with
  | some i => if 0 < i && i < name.length - 1 then name.drop i else []
  | Option.none => []

/-- String wrapper for `pathSuffixL`. -/
def pathSuffix (s : String) : String := ⟨pathSuffixL s.data⟩

/-- CPython `PurePath.stem`: the final component without its suffix. -/
def pathStem (s : String) : String :=
  let name := baseNameL s.data
  ⟨name.take (name.length - (pathSuffixL s.data).length)⟩

/-- The rule engine's `extension` field value:
`Path(full_path).suffix.lower()` (rules_engine.py line 212). -/
def rules_extension (s : String) : String := ⟨toLowerL (pathSuffixL s.data)⟩

/-- `RulesEngine._get_field_value` (rules_engine.py lines 187-222).
The `dict.get` defaults are as in the source; `Path(...)` applied to a
non-string raises `TypeError`, which the enclosing `except` turns into
`None`. -/
def get_field_value (file_info : Record) (field : String) : PyVal :=
  if field == "name" then
    match rget file_info "full_path" (.str "") with
    | .str p => .str (baseName p)
    | _ => .none
  else if field == "size" then rget file_info "size" (.int 0)
  else if field == "type" then rget file_info "primary_type" (.str "")
  else if field == "mime" then rget file_info "mime" (.str "")
  else if field == "created" then rget file_info "created_at" .none
  else if field == "modified" then rget file_info "last_seen" .none
  else if field == "path" then rget file_info "full_path" (.str "")
  else if field == "extension" then
    match rget file_info "full_path" (.str "") with
    | .str p => .str (rules_extension p)
    | _ => .none
  else if field == "tag" then rget file_info "tags" (.list [])
  else rget file_info field .none

/-! The condition operator handlers (rules_engine.py lines 225-280).
Each returns `Option Bool`: `Option.none` models an uncaught exception
inside the handler (only the ordering comparisons can raise; the
caller catches it). -/

/-- `RulesEngine._eq`: Python `==` never raises. -/
def op_eq (a b : PyVal) : Option Bool := some (a == b)

/-- `RulesEngine._ne`. -/
def op_ne (a b : PyVal) : Option Bool := some (a != b)

/-- `RulesEngine._gt`: `field_value > value`, `TypeError` on
incomparable operands. -/
def op_gt (a b : PyVal) : Option Bool :=
  (pyCmp a b).map (fun o => o == Ordering.gt)

/-- `RulesEngine._gte`. -/
def op_gte (a b : PyVal) : Option Bool :=
  (pyCmp a b).map (fun o => o == Ordering.gt || o == Ordering.eq)

/-- `RulesEngine._lt`. -/
def op_lt (a b : PyVal) : Option Bool :=
  (pyCmp a b).map (fun o => o == Ordering.lt)

/-- `RulesEngine._lte`. -/
def op_lte (a b : PyVal) : Option Bool :=
  (pyCmp a b).map (fun o => o == Ordering.lt || o == Ordering.eq)

/-- `RulesEngine._contains`: lowercased substring test when both sides
are strings, `False` otherwise. -/
def op_contains (a b : PyVal) : Option Bool :=
  match a, b with
  | .str fv, .str v => some (isInfixL v.toLower.data fv.toLower.data)
  | _, _ => some false

/-- `RulesEngine._starts_with`. -/
def op_starts_with (a b : PyVal) : Option Bool :=
  match a, b with
  | .str fv, .str v => some (fv.toLower.startsWith v.toLower)
  | _, _ => some false

/-- `RulesEngine._ends_with`. -/
def op_ends_with (a b : PyVal) : Option Bool :=
  match a, b with
  | .str fv, .str v => some (fv.toLower.endsWith v.toLower)
  | _, _ => some false

/-- `RulesEngine._regex`: `re.search(value, field_value)` when both are
strings.  The stdlib regex engine is external to the repository; it is
modelled as a literal substring search, which coincides with `re.search`
for metacharacter-free patterns (no checked property uses any pattern at
all).  `re.error` is caught inside the handler, so the handler never
raises. -/
def op_regex (a b : PyVal) : Option Bool :=
  match a, b with
  | .str fv, .str v => some (isInfixL v.data fv.data)
  | _, _ => some false

/-- `RulesEngine._in`: membership when `value` is a list (Python `in`
uses `==` on elements), `False` otherwise. -/
def op_in (a b : PyVal) : Option Bool :=
  match b with
  | .list vs => some (vs.any (fun v => v == a))
  | _ => some false

/-- `RulesEngine._not_in`. -/
def op_not_in (a b : PyVal) : Option Bool :=
  match b with
  | .list vs => some (!vs.any (fun v => v == a))
  | _ => some false

/-- `RulesEngine._is_null`: `field_value is None`. -/
def op_is_null (a _b : PyVal) : Option Bool := some (a == PyVal.none)

/-- `RulesEngine._is_not_null`. -/
def op_is_not_null (a _b : PyVal) : Option Bool := some (a != PyVal.none)

/-- The `condition_operators` dispatch table
(rules_engine.py lines 24-39). -/
def condOpHandler : String → Option (PyVal → PyVal → Option Bool)
  | "eq" => some op_eq
  | "ne" => some op_ne
  | "gt" => some op_gt
  | "gte" => some op_gte
  | "lt" => some op_lt
  | "lte" => some op_lte
  | "contains" => some op_contains
  | "starts_with" => some op_starts_with
  | "ends_with" => some op_ends_with
  | "regex" => some op_regex
  | "in" => some op_in
  | "not_in" => some op_not_in
  | "is_null" => some op_is_null
  | "is_not_null" => some op_is_not_null
  | _ => Option.none

/-- A condition dict.  `field` is `condition.get("field")`
(`Option.none` when the key is absent); `op` is the raw value of the
`"op"` key (`evaluate_condition` and `parse_condition` both apply the
`.get("op", "eq")` default themselves); an absent `"value"` key is the
same as storing Python `None`, exactly as `dict.get` returns it. -/
structure Cond where
  field : Option String
  op : Option String
  value : PyVal
  deriving Repr, DecidableEq

/-- `RulesEngine.evaluate_condition` (rules_engine.py lines 67-86):
falsy field or unknown operator short-circuit to `False`; a handler
exception is caught by the enclosing `except` and becomes `False`. -/
def evaluate_condition (c : Cond) (file_info : Record) : Bool :=
  let operator := c.op.getD "eq"
  let fieldFalsy :=
    match c.field with
    | Option.none => true
    | some f => f == ""
  if fieldFalsy then false
  else
    match condOpHandler operator with
    | Option.none => false
    | some h =>
      let fv := get_field_value file_info (c.field.getD "")
      (h fv c.value).getD false

/-- The shared condition-tree grammar of the rule engine and the
SavedView compiler: exactly one of the combinator keys `all` / `any` /
`not`, or a bare condition dict.  Both services dispatch on the keys in
this order (rules_engine.py lines 88-117, savedview_service.py lines
51-83), so a single-key dict is exactly one constructor. -/
inductive CondTree where
  | all (cs : List Cond)
  | any (cs : List Cond)
  | not (c : Cond)
  | single (c : Cond)
  deriving Repr

/-- The `for` loop of the `all` branch of `RulesEngine.evaluate_rule`:
return `False` at the first failing condition. -/
def evalAllLoop (file_info : Record) : List Cond → Bool
  | [] => true
  | c :: rest =>
    if evaluate_condition c file_info then evalAllLoop file_info rest
    else false

/-- The `for` loop of the `any` branch of `RulesEngine.evaluate_rule`:
return `True` at the first succeeding condition. -/
def evalAnyLoop (file_info : Record) : List Cond → Bool
  | [] => false
  | c :: rest =>
    if evaluate_condition c file_info then true
    else evalAnyLoop file_info rest

/-- `RulesEngine.evaluate_rule` (rules_engine.py lines 88-117), applied
to the `when` tree of a rule. -/
def evaluate_rule (tree : CondTree) (file_info : Record) : Bool :=
  match tree with
  | .all cs => evalAllLoop file_info cs
  | .any cs => evalAnyLoop file_info cs
  | .not c => !evaluate_condition c file_info
  | .single c => evaluate_condition c file_info

/-! The SavedView query compiler
(`backend/app/services/savedview_service.py`). -/

mutual

/-- Python `repr()` as invoked by `str()` on list elements.  Quote
escaping inside strings is not reproduced (no checked property nests a
quoted string inside a list value). -/
def pyRepr : PyVal → String
  | .none => "None"
  | .int n => toString n
  | .str s => "\x27" ++ s ++ "\x27"
  | .list vs => "[" ++ ", ".intercalate (pyReprList vs) ++ "]"

/-- `repr()` of each element of a list. -/
def pyReprList : List PyVal → List String
  | [] => []
  | v :: rest => pyRepr v :: pyReprList rest

end

/-- Python `str()` of a value, as interpolated by an f-string. -/
def pyStr : PyVal → String
  | .none => "None"
  | .int n => toString n
  | .str s => s
  | .list vs => "[" ++ ", ".intercalate (pyReprList vs) ++ "]"

/-- The `operators` dict of `SavedViewService`
(savedview_service.py lines 24-36): op name to SQL operator token. -/
def svOperators : String → Option String
  | "eq" => some "="
  | "ne" => some "!="
  | "gt" => some ">"
  | "gte" => some ">="
  | "lt" => some "<"
  | "lte" => some "<="
  | "like" => some "LIKE"
  | "in" => some "IN"
  | "not_in" => some "NOT IN"
  | "is_null" => some "IS NULL"
  | "is_not_null" => some "IS NOT NULL"
  | _ => Option.none

/-- The `field_mapping` dict of `SavedViewService`
(savedview_service.py lines 39-49): logical field to SQL column. -/
def svFieldMapping : String → Option String
  | "name" => some "a.full_path"
  | "size" => some "b.size"
  | "type" => some "b.primary_type"
  | "mime" => some "b.mime"
  | "created" => some "b.created_at"
  | "modified" => some "a.last_seen"
  | "path" => some "a.full_path"
  | "extension" => some "a.full_path"
  | "tag" => some "ft.tag_id"
  | _ => Option.none

/-- `SavedViewService.parse_condition` (savedview_service.py lines
85-141), producing the SQL fragment the service splices into its query.
Unknown fields fall back to the raw field name (`.get(field, field)`),
unknown operators to `"="` (`.get(operator, "=")`); every value is
interpolated into the string with f-string formatting, exactly as in
the source.  The `try` around the body catches nothing in this model
(no operation below raises). -/
def parse_condition (c : Cond) : String :=
  let field := c.field.getD ""
  let operator := c.op.getD "eq"
  let sql_field0 := (svFieldMapping field).getD field
  let sql_operator := (svOperators operator).getD "="
  let isExt := field == "extension"
  let sql_field :=
    if isExt then
      "LOWER(SUBSTR(" ++ sql_field0 ++ ", INSTR(" ++ sql_field0 ++
        ", \x27.\x27) + 1))"
    else sql_field0
  let value :=
    if isExt then
      match c.value with
      | .str s => .str s.toLower
      | v => v
    else c.value
  if operator == "in" then
    match value with
    | .list vs =>
      sql_field ++ " IN (" ++
        ", ".intercalate (vs.map (fun v => "\x27" ++ pyStr v ++ "\x27")) ++ ")"
    | v => sql_field ++ " = \x27" ++ pyStr v ++ "\x27"
  else if operator == "not_in" then
    match value with
    | .list vs =>
      sql_field ++ " NOT IN (" ++
        ", ".intercalate (vs.map (fun v => "\x27" ++ pyStr v ++ "\x27")) ++ ")"
    | v => sql_field ++ " != \x27" ++ pyStr v ++ "\x27"
  else if operator == "like" then
    sql_field ++ " LIKE \x27%" ++ pyStr value ++ "%\x27"
  else if operator == "is_null" then
    sql_field ++ " IS NULL"
  else if operator == "is_not_null" then
    sql_field ++ " IS NOT NULL"
  else
    let valueStr :=
      match value with
      | .str s => "\x27" ++ s ++ "\x27"
      | .int n => toString n
      | v => "\x27" ++ pyStr v ++ "\x27"
    sql_field ++ " " ++ sql_operator ++ " " ++ valueStr

/-- `SavedViewService.parse_query_ast` (savedview_service.py lines
51-83): joins the non-empty compiled conditions with the combinator
keyword; an empty string signals failure to the caller. -/
def parse_query_ast : CondTree → String
  | .all cs =>
    " AND ".intercalate ((cs.map parse_condition).filter (fun s => s != ""))
  | .any cs =>
    " OR ".intercalate ((cs.map parse_condition).filter (fun s => s != ""))
  | .not c =>
    let s := parse_condition c
    if s == "" then "" else "NOT (" ++ s ++ ")"
  | .single c => parse_condition c

/-- The AST validation performed by `SavedViewService.create_savedview`
(savedview_service.py lines 226-229) and `update_savedview` (lines
263-267): the view is persisted iff the compiled string is truthy,
i.e. non-empty. -/
def create_savedview_accepts (ast : CondTree) : Bool :=
  parse_query_ast ast != ""

/-- SQLite evaluation of the expression the compiler generates for the
`extension` field, `LOWER(SUBSTR(f, INSTR(f, ".") + 1))`
(savedview_service.py line 100) applied to the `a.full_path` column:
`INSTR` is the 1-based index of the first occurrence (0 when absent)
and `SUBSTR(s, k)` the suffix starting at the k-th character, so the
result is the lowercased text after the first dot, or the whole
lowercased path when it has no dot. -/
def sql_extension_chars (l : List Char) : List Char :=
  match l.findIdx? (fun c => c == '.') with
  | some i => toLowerL (l.drop (i + 1))
  | Option.none => toLowerL l

/-- String wrapper for `sql_extension_chars`. -/
def sql_extension (s : String) : String := ⟨sql_extension_chars s.data⟩

/-- Modelled from the spec: the extension derivation as the spec words
it, "the lowercase substring after the last dot in the path", for
comparison against the two implementations (no behaviour is specified
for a dotless path; the whole lowercased path is used, matching the
SQL fallback). -/
def spec_extension (s : String) : String :=
  match rfindIdx s.data '.' with
  | some i => ⟨toLowerL (s.data.drop (i + 1))⟩
  | Option.none => ⟨toLowerL s.data⟩

/-! The hashing engine and the ingestion dedup decision
(`backend/app/services/hash_service.py`,
`backend/app/services/scanner.py`).  A file is its byte content, a
`List Nat`; a hash value is modelled as the exact byte sequence fed to
the hasher, so two files get equal hash values iff the hasher reads
equal bytes from them — which is precisely when blake3/sha256 returns
equal digests, up to digest collisions on distinct inputs, which are
outside the model. -/

/-- The bytes `FileScanner._calculate_fast_hash` feeds to blake3
(scanner.py lines 66-93): the whole content for files of at most
1 MiB; the first 64 KiB followed by the last 64 KiB above 1 MiB (the
inner `file_size > 128 * 1024` guard is kept as written, though it is
always true on that branch). -/
def scanner_fast_probe (content : List Nat) : List Nat :=
  let file_size := content.length
  if 1024 * 1024 < file_size then
    let head := content.take (64 * 1024)
    if 128 * 1024 < file_size then
      head ++ content.drop (file_size - 64 * 1024)
    else head
  else content

/-- The bytes `HashService.calculate_fast_hash` feeds to blake3
(hash_service.py lines 23-48): the whole content when
`size <= chunk_size * 2` (chunk_size defaults to 64 KiB), else the
first and last `chunk_size` bytes. -/
def service_fast_probe (content : List Nat) (chunk_size : Nat := 64 * 1024) :
    List Nat :=
  if content.length ≤ chunk_size * 2 then content
  else content.take chunk_size ++ content.drop (content.length - chunk_size)

/-- The SHA-256 full-content hash (`_calculate_content_hash`,
scanner.py lines 95-105), modelled as the full byte sequence itself. -/
def full_hash (content : List Nat) : List Nat := content

/-- A catalogued `Blob` row as the scanner queries it. -/
structure BlobRow where
  content_hash : List Nat
  fast_hash : List Nat
  size : Nat
  deriving Repr, DecidableEq

/-- The outcome of `_process_file`, with an instrumentation flag
recording whether `_calculate_content_hash` was invoked. -/
structure ScanRecord where
  content_hash : List Nat
  fast_hash : List Nat
  size : Nat
  fullHashComputed : Bool
  deriving Repr, DecidableEq

/-- The hashing/dedup decision of `FileScanner._process_file`
(scanner.py lines 133-160): compute the fast hash; if some catalogued
Blob has the same `fast_hash`, reuse its `content_hash` without any
further reading of the file; only otherwise compute the full content
hash.  (The blacklist and stat steps of lines 125-131 act on path and
metadata only and are not modelled; IO errors do not occur in the
model.) -/
def scanner_process_file (catalog : List BlobRow) (content : List Nat) :
    ScanRecord :=
  let fh := scanner_fast_probe content
  match catalog.find? (fun b => b.fast_hash == fh) with
  | some b =>
    { content_hash := b.content_hash, fast_hash := fh,
      size := content.length, fullHashComputed := false }
  | Option.none =>
    { content_hash := full_hash content, fast_hash := fh,
      size := content.length, fullHashComputed := true }

/-! The rule engine's action execution
(rules_engine.py lines 119-185 and 283-490).  The mutable world the
handlers touch — the tag/file_tag/blob/asset tables and the filesystem
— is the explicit `SysState`; the filesystem is the set of existing
paths, and the external `shutil`/`os` calls succeed iff their source
path exists. -/

/-- A `Tag` row (name/kind/color, autoincrement id). -/
structure TagRow where
  id : Nat
  name : PyVal
  kind : String
  color : PyVal
  deriving Repr, DecidableEq

/-- A `FileTag` attachment row. -/
structure FileTagRow where
  content_hash : PyVal
  tag_id : Nat
  source : String
  confidence : PyVal
  deriving Repr, DecidableEq

/-- The `Blob` columns the actions touch. -/
structure BlobTypeRow where
  content_hash : PyVal
  primary_type : PyVal
  deriving Repr, DecidableEq

/-- The `Asset` columns the actions touch. -/
structure AssetRow where
  full_path : PyVal
  is_available : Bool
  deriving Repr, DecidableEq

/-- The state the action handlers read and write.  `nextTagId` models
the autoincrement primary key of the `tags` table. -/
structure SysState where
  tags : List TagRow
  fileTags : List FileTagRow
  blobs : List BlobTypeRow
  assets : List AssetRow
  fsPaths : List String
  nextTagId : Nat
  deriving Repr, DecidableEq

/-- `RulesEngine._add_tag` (rules_engine.py lines 283-322): falsy tag
name or content hash fail; the tag is fetched or created; the
attachment row is inserted only when no row with the same
`(content_hash, tag_id)` exists; the handler reports success either
way.  The result dict is reduced to its `success` entry, the only one
the caller reads. -/
def add_tag (s : SysState) (file_info args : Record) : SysState × Bool :=
  let tag_name := rget args "name" .none
  if pyFalsy tag_name then (s, false)
  else
    let content_hash := rget file_info "content_hash" .none
    if pyFalsy content_hash then (s, false)
    else
      let found := s.tags.find? (fun t => t.name == tag_name)
      let s1 : SysState :=
        match found with
        | some _ => s
        | Option.none =>
          { s with
            tags := s.tags ++
              [{ id := s.nextTagId, name := tag_name, kind := "rule",
                 color := rget args "color" (.str "#2196F3") }],
            nextTagId := s.nextTagId + 1 }
      let tagId : Nat :=
        match found with
        | some t => t.id
        | Option.none => s.nextTagId
      match s1.fileTags.find?
          (fun ft => ft.content_hash == content_hash && ft.tag_id == tagId) with
      | some _ => (s1, true)
      | Option.none =>
        ({ s1 with
           fileTags := s1.fileTags ++
             [{ content_hash := content_hash, tag_id := tagId,
                source := "rule",
                confidence := rget args "confidence" (.int 1) }] }, true)

/-- `RulesEngine._remove_tag` (lines 324-352): removing an unknown tag
succeeds; otherwise every matching attachment row is deleted. -/
def remove_tag (s : SysState) (file_info args : Record) : SysState × Bool :=
  let tag_name := rget args "name" .none
  if pyFalsy tag_name then (s, false)
  else
    let content_hash := rget file_info "content_hash" .none
    if pyFalsy content_hash then (s, false)
    else
      match s.tags.find? (fun t => t.name == tag_name) with
      | Option.none => (s, true)
      | some tag =>
        ({ s with
           fileTags := s.fileTags.filter
             (fun ft =>
               !(ft.content_hash == content_hash && ft.tag_id == tag.id)) },
         true)

/-- Update the first matching blob row (SQLAlchemy `first()` then
attribute assignment). -/
def updateFirstBlob (ch pt : PyVal) : List BlobTypeRow → List BlobTypeRow
  | [] => []
  | b :: rest =>
    if b.content_hash == ch then { b with primary_type := pt } :: rest
    else b :: updateFirstBlob ch pt rest

/-- `RulesEngine._set_primary_type` (lines 354-376): succeeds even when
no blob matches. -/
def set_primary_type (s : SysState) (file_info args : Record) :
    SysState × Bool :=
  let pt := rget args "type" .none
  if pyFalsy pt then (s, false)
  else
    let ch := rget file_info "content_hash" .none
    if pyFalsy ch then (s, false)
    else ({ s with blobs := updateFirstBlob ch pt s.blobs }, true)

/-- Update the first asset whose `full_path` matches, with `f`. -/
def updateFirstAsset (p : PyVal) (f : AssetRow → AssetRow) :
    List AssetRow → List AssetRow
  | [] => []
  | a :: rest =>
    if a.full_path == p then f a :: rest
    else a :: updateFirstAsset p f rest

/-- `RulesEngine._move_file` (lines 378-403): `shutil.move` succeeds iff
the source path exists (and both paths are strings — a non-string
raises `TypeError`, caught into failure); on success the path set and
the first matching asset row are updated. -/
def move_file (s : SysState) (file_info args : Record) : SysState × Bool :=
  let target := rget args "path" .none
  if pyFalsy target then (s, false)
  else
    let source := rget file_info "full_path" .none
    if pyFalsy source then (s, false)
    else
      match source, target with
      | .str src, .str tgt =>
        if src ∈ s.fsPaths then
          ({ s with
             fsPaths := tgt :: s.fsPaths.erase src,
             assets := updateFirstAsset (.str src)
               (fun a => { a with full_path := .str tgt }) s.assets }, true)
        else (s, false)
      | _, _ => (s, false)

/-- `RulesEngine._copy_file` (lines 405-424): `shutil.copy2` succeeds
iff the source exists; the catalog is not touched. -/
def copy_file (s : SysState) (file_info args : Record) : SysState × Bool :=
  let target := rget args "path" .none
  if pyFalsy target then (s, false)
  else
    let source := rget file_info "full_path" .none
    if pyFalsy source then (s, false)
    else
      match source, target with
      | .str src, .str tgt =>
        if src ∈ s.fsPaths then
          ({ s with fsPaths := tgt :: s.fsPaths }, true)
        else (s, false)
      | _, _ => (s, false)

/-- `RulesEngine._delete_file` (lines 426-447): `os.remove` succeeds iff
the path exists; on success the first matching asset is marked
unavailable. -/
def delete_file (s : SysState) (file_info _args : Record) :
    SysState × Bool :=
  let source := rget file_info "full_path" .none
  if pyFalsy source then (s, false)
  else
    match source with
    | .str src =>
      if src ∈ s.fsPaths then
        ({ s with
           fsPaths := s.fsPaths.erase src,
           assets := updateFirstAsset (.str src)
             (fun a => { a with is_available := false }) s.assets }, true)
      else (s, false)
    | _ => (s, false)

/-- `RulesEngine._generate_preview` (lines 449-462): forwards to the
external preview collaborator; succeeds iff a content hash is
present. -/
def generate_preview (s : SysState) (file_info _args : Record) :
    SysState × Bool :=
  (s, !pyFalsy (rget file_info "content_hash" .none))

/-- `RulesEngine._extract_metadata` (lines 464-477): same shape as
`generate_preview`. -/
def extract_metadata (s : SysState) (file_info _args : Record) :
    SysState × Bool :=
  (s, !pyFalsy (rget file_info "content_hash" .none))

/-- `RulesEngine._send_notification` (lines 479-490): logs and always
succeeds. -/
def send_notification (s : SysState) (_file_info _args : Record) :
    SysState × Bool :=
  (s, true)

/-- The `action_handlers` dispatch table (rules_engine.py lines
42-52). -/
def actionHandler :
    String → Option (SysState → Record → Record → SysState × Bool)
  | "add_tag" => some add_tag
  | "remove_tag" => some remove_tag
  | "set_primary_type" => some set_primary_type
  | "move_file" => some move_file
  | "copy_file" => some copy_file
  | "delete_file" => some delete_file
  | "generate_preview" => some generate_preview
  | "extract_metadata" => some extract_metadata
  | "send_notification" => some send_notification
  | _ => Option.none

/-- One entry of a rule's `then` list: `action.get("action")` and
`action.get("args", ...)`. -/
structure ActionSpec where
  action : String
  args : Record
  deriving Repr, DecidableEq

/-- One entry of the result list built by `execute_actions`: the action
name and the success flag (`result.get("success", False)`); the
`result` / `error` payload entries are not read by any caller checked
here. -/
structure ActionResult where
  action : String
  success : Bool
  deriving Repr, DecidableEq

/-- `RulesEngine.execute_actions` (rules_engine.py lines 119-154): one
result entry per action, in order; an unknown action name yields a
failure entry and execution continues. -/
def execute_actions (s : SysState) (file_info : Record) :
    List ActionSpec → SysState × List ActionResult
  | [] => (s, [])
  | a :: rest =>
    match actionHandler a.action with
    | Option.none =>
      let out := execute_actions s file_info rest
      (out.1, { action := a.action, success := false } :: out.2)
    | some h =>
      let step := h s file_info a.args
      let out := execute_actions step.1 file_info rest
      (out.1, { action := a.action, success := step.2 } :: out.2)

/-- A rule as supplied per call: `when` tree and ordered `then` list. -/
structure RuleSpec where
  name : String
  whenCond : CondTree
  thenActions : List ActionSpec
  deriving Repr

/-- The rule loop of `RulesEngine.process_file` (rules_engine.py lines
162-171): every rule is evaluated; each matching rule has all its
actions executed in order (the `if actions:` guard skips the call for
an empty list); returns the final state, the matched-rule count and the
concatenated result entries. -/
def process_rules_loop (s : SysState) (file_info : Record) :
    List RuleSpec → SysState × Nat × List ActionResult
  | [] => (s, 0, [])
  | r :: rest =>
    if evaluate_rule r.whenCond file_info then
      let step :=
        if r.thenActions.isEmpty then (s, [])
        else execute_actions s file_info r.thenActions
      let out := process_rules_loop step.1 file_info rest
      (out.1, out.2.1 + 1, step.2 ++ out.2.2)
    else process_rules_loop s file_info rest

/-- The summary dict returned by `RulesEngine.process_file`. -/
structure ProcessOutcome where
  success : Bool
  matched_rules : Nat
  executed_actions : Nat
  results : List ActionResult
  deriving Repr, DecidableEq

/-- `RulesEngine.process_file` (rules_engine.py lines 156-185), the
spec's `Apply`. -/
def rules_process_file (s : SysState) (file_info : Record)
    (rules : List RuleSpec) : SysState × ProcessOutcome :=
  let out := process_rules_loop s file_info rules
  (out.1,
   { success := true, matched_rules := out.2.1,
     executed_actions := out.2.2.length, results := out.2.2 })

/-- Number of attachment rows for a `(content_hash, tag_id)` pair. -/
def countAttach (s : SysState) (ch : PyVal) (tid : Nat) : Nat :=
  s.fileTags.countP (fun ft => ft.content_hash == ch && ft.tag_id == tid)

/-! SavedView execution and export
(savedview_service.py lines 143-221 and 326-406).  The SQL predicate
over the asset/blob join is abstracted as the list `allRows` of rows
matching the view's WHERE clause in its ORDER BY order; `LIMIT l OFFSET
o` then selects `(allRows.drop o).take l`, and the count query — the
same statement with the LIMIT/OFFSET text removed — returns the length
of `allRows`.  The export-side filesystem is the set of existing paths:
a symlink source exists iff its path is in the set, and a created link
adds its target path. -/

/-- One row of a SavedView result page. -/
structure ViewRow where
  content_hash : String
  full_path : String
  deriving Repr, DecidableEq

/-- The pair returned by `execute_savedview`: the page and the
unpaginated total. -/
structure ExecPage where
  files : List ViewRow
  total : Nat
  deriving Repr, DecidableEq

/-- `SavedViewService.execute_savedview` (lines 143-221) over the
abstract matching-row list; the Python default is `limit=1000,
offset=0`. -/
def execute_savedview (allRows : List ViewRow) (limit : Nat := 1000)
    (offset : Nat := 0) : ExecPage :=
  { files := (allRows.drop offset).take limit, total := allRows.length }

/-- The `while target_path.exists()` collision loop of
`export_symlinks` (lines 359-364), made structurally terminating with
fuel; `fs.length + 1` candidates always contain a fresh one, so the
fuel-exhausted fallback is unreachable. -/
def findFreeLoop (fs : List String) (dir stem sfx : String) :
    Nat → Nat → String
  | 0, counter => dir ++ "/" ++ stem ++ "_" ++ toString counter ++ sfx
  | fuel + 1, counter =>
    let cand := dir ++ "/" ++ stem ++ "_" ++ toString counter ++ sfx
    if cand ∈ fs then findFreeLoop fs dir stem sfx fuel (counter + 1)
    else cand

/-- The target-path choice for one exported file (lines 355-364): the
basename under the export directory, suffixed `_1`, `_2`, ... until the
name is free. -/
def exportTarget (fs : List String) (dir : String) (p : String) : String :=
  let t0 := dir ++ "/" ++ baseName p
  if t0 ∈ fs then
    findFreeLoop fs dir (pathStem p) (pathSuffix p) (fs.length + 1) 1
  else t0

/-- The per-file loop of `export_symlinks` (lines 346-377): a missing
source becomes one `errors` entry; otherwise a link is created at the
first collision-free target and recorded in `files`.  Returns the
final path set, the created list and the error list, each in file
order.  (Link-creation failures other than a missing source —
e.g. permissions — are not modelled.) -/
def exportLoop (fs : List String) (dir : String) :
    List ViewRow → List String × List (String × String) × List (String × String)
  | [] => (fs, [], [])
  | row :: rest =>
    if row.full_path ∈ fs then
      let target := exportTarget fs dir row.full_path
      let out := exportLoop (target :: fs) dir rest
      (out.1, (row.full_path, target) :: out.2.1, out.2.2)
    else
      let out := exportLoop fs dir rest
      (out.1, out.2.1, (row.full_path, "源文件不存在") :: out.2.2)

/-- The outcome of `export_symlinks`, combining the returned dict and
the manifest file: `manifestWritten` records whether the manifest was
written at all. -/
structure ExportOutcome where
  success : Bool
  manifestWritten : Bool
  total_files : Nat
  created_links : Nat
  failed_links : Nat
  createdList : List (String × String)
  errorList : List (String × String)
  deriving Repr, DecidableEq

/-- `SavedViewService.export_symlinks` (lines 326-406): executes the
view with `limit=10000`, aborts with an error (writing no manifest)
when no file matched, otherwise processes every file of the page and
writes the manifest with `total_files = len(files)`,
`created_links = len(created_links)`, `failed_links =
len(failed_links)`. -/
def export_symlinks (fs : List String) (dir : String)
    (allRows : List ViewRow) : ExportOutcome :=
  let page := execute_savedview allRows 10000 0
  let files := page.files
  if files.isEmpty then
    { success := false, manifestWritten := false, total_files := 0,
      created_links := 0, failed_links := 0, createdList := [],
      errorList := [] }
  else
    let out := exportLoop fs dir files
    { success := true, manifestWritten := true,
      total_files := files.length, created_links := out.2.1.length,
      failed_links := out.2.2.length, createdList := out.2.1,
      errorList := out.2.2 }

/-- A file of 1 MiB + 1 zero bytes. -/
def bigA : List Nat := List.replicate 1048577 0

/-- A file of the same length whose first and last 64 KiB agree with
`bigA` but whose byte at offset 65536 differs, so the two files share
a fast probe while their contents differ. -/
def bigB : List Nat := List.replicate 65536 0 ++ 1 :: List.replicate 983040 0

/-! Theorems. -/

/-- Normal form of the scanner probe: full content up to 1 MiB, first
64 KiB + last 64 KiB above (the nested guards of the source collapse
to this). -/
theorem scanner_fast_probe_eq (content : List Nat) :
    scanner_fast_probe content =
      if content.length ≤ 1048576 then content
      else content.take 65536 ++ content.drop (content.length - 65536) := by
  show (if 1024 * 1024 < content.length then
          (if 128 * 1024 < content.length then
            content.take (64 * 1024) ++
              content.drop (content.length - 64 * 1024)
          else content.take (64 * 1024))
        else content) = _
  by_cases h : content.length ≤ 1048576
  · rw [if_neg (by omega), if_pos h]
  · rw [if_pos (by omega), if_pos (by omega), if_neg h]

/-- Normal form of the hash-service probe with the default chunk size:
full content up to 128 KiB, first 64 KiB + last 64 KiB above. -/
theorem service_fast_probe_eq (content : List Nat) :
    service_fast_probe content =
      if content.length ≤ 131072 then content
      else content.take 65536 ++ content.drop (content.length - 65536) := by
  show (if content.length ≤ 64 * 1024 * 2 then content
        else content.take (64 * 1024) ++
          content.drop (content.length - 64 * 1024)) = _
  norm_num

/-- The probe of `bigA`: first and last 64 KiB, all zeros. -/
theorem probe_bigA :
    scanner_fast_probe bigA
      = List.replicate 65536 0 ++ List.replicate 65536 0 := by
  rw [scanner_fast_probe_eq]
  have h : bigA.length = 1048577 := by
    simp only [bigA, List.length_replicate]
  rw [h, if_neg (by norm_num)]
  show (List.replicate 1048577 (0 : Nat)).take 65536 ++
      (List.replicate 1048577 (0 : Nat)).drop (1048577 - 65536) = _
  rw [List.take_replicate, List.drop_replicate]
  norm_num

/-- The probe of `bigB` equals the probe of `bigA`. -/
theorem probe_bigB :
    scanner_fast_probe bigB
      = List.replicate 65536 0 ++ List.replicate 65536 0 := by
  have h : bigB.length = 1048577 := by
    show (List.replicate 65536 (0 : Nat) ++
        1 :: List.replicate 983040 0).length = 1048577
    rw [List.length_append, List.length_cons, List.length_replicate,
      List.length_replicate]
  rw [scanner_fast_probe_eq, h, if_neg (by norm_num)]
  have ht : bigB.take 65536 = List.replicate 65536 0 := by
    rw [show bigB = List.replicate 65536 0 ++ 1 :: List.replicate 983040 0
        from rfl,
      List.take_append_of_le_length
        (by simp only [List.length_replicate]; omega),
      List.take_replicate]
    norm_num
  have hd : bigB.drop (1048577 - 65536) = List.replicate 65536 0 := by
    have hidx : (1048577 - 65536 : Nat)
        = (List.replicate 65536 (0 : Nat)).length + 917505 := by
      rw [List.length_replicate]
    rw [hidx,
      show bigB = List.replicate 65536 0 ++ 1 :: List.replicate 983040 0
        from rfl,
      List.drop_append,
      show (917505 : Nat) = 917504 + 1 from by norm_num,
      List.drop_succ_cons, List.drop_replicate]
  rw [ht, hd]

/-- When some catalogued Blob matches the probe, `_process_file`
returns its content hash with no full-hash computation. -/
theorem scanner_process_file_of_find (catalog : List BlobRow)
    (content : List Nat) (b : BlobRow)
    (hf : catalog.find? (fun x => x.fast_hash == scanner_fast_probe content)
      = some b) :
    scanner_process_file catalog content
      = { content_hash := b.content_hash,
          fast_hash := scanner_fast_probe content,
          size := content.length, fullHashComputed := false } := by
  simp only [scanner_process_file, hf]

/-- Whenever the catalog holds a Blob whose fast hash equals the new
file's probe, the scanner reuses that Blob's content hash and skips the
full hash — for any two contents with colliding probes. -/
theorem scanner_dedup_of_probe_collision (c1 c2 : List Nat) (n : Nat)
    (hprobe : scanner_fast_probe c1 = scanner_fast_probe c2) :
    (scanner_process_file [⟨full_hash c1, scanner_fast_probe c1, n⟩]
        c2).fullHashComputed = false ∧
    (scanner_process_file [⟨full_hash c1, scanner_fast_probe c1, n⟩]
        c2).content_hash = full_hash c1 := by
  have hfind :
      List.find? (fun x => x.fast_hash == scanner_fast_probe c2)
          ([⟨full_hash c1, scanner_fast_probe c1, n⟩] : List BlobRow)
        = some ⟨full_hash c1, scanner_fast_probe c1, n⟩ := by
    rw [List.find?_cons_of_pos]
    show (scanner_fast_probe c1 == scanner_fast_probe c2) = true
    rw [hprobe]
    exact beq_self_eq_true _
  rw [scanner_process_file_of_find _ _ _ hfind]
  exact ⟨rfl, rfl⟩

/-- C1 (refuting): two distinct files that agree on their first and
last 64 KiB (hence on their FastProbe) are merged by the scanner: with
the first file's Blob catalogued, processing the second reuses that
Blob's content hash and never invokes the full-content hash, so the
second file is assigned a content hash that is not the hash of its own
bytes. -/
theorem scanner_reuses_content_hash_without_fullhash :
    bigA ≠ bigB ∧
    scanner_fast_probe bigA = scanner_fast_probe bigB ∧
    (scanner_process_file
        [⟨full_hash bigA, scanner_fast_probe bigA, 1048577⟩]
        bigB).fullHashComputed = false ∧
    (scanner_process_file
        [⟨full_hash bigA, scanner_fast_probe bigA, 1048577⟩]
        bigB).content_hash = full_hash bigA ∧
    full_hash bigA ≠ full_hash bigB := by
  have hne : bigA ≠ bigB := by
    intro h
    have ha : bigA[65536]? = some 0 := by
      show (List.replicate 1048577 (0 : Nat))[65536]? = some 0
      rw [List.getElem?_replicate]
      exact if_pos (by norm_num)
    have hb : bigB[65536]? = some 1 := by
      show (List.replicate 65536 (0 : Nat) ++
          1 :: List.replicate 983040 0)[65536]? = some 1
      rw [List.getElem?_append_right (by rw [List.length_replicate]),
        List.length_replicate,
        show (65536 - 65536 : Nat) = 0 from by norm_num,
        List.getElem?_cons_zero]
    have h2 : bigA[65536]? = bigB[65536]? := by rw [h]
    rw [ha, hb] at h2
    exact absurd (Option.some.inj h2) (by norm_num)
  have hprobe : scanner_fast_probe bigA = scanner_fast_probe bigB := by
    rw [probe_bigA, probe_bigB]
  have hmain := scanner_dedup_of_probe_collision bigA bigB 1048577 hprobe
  exact ⟨hne, hprobe, hmain.1, hmain.2, hne⟩

/-- C7 (amended): the two fast-probe implementations in normal form —
`HashService.calculate_fast_hash` switches from whole-content to
head+tail hashing at 128 KiB, but `FileScanner._calculate_fast_hash`
switches at 1 MiB. -/
theorem fast_probe_thresholds (content : List Nat) :
    service_fast_probe content =
      (if content.length ≤ 131072 then content
       else content.take 65536 ++ content.drop (content.length - 65536)) ∧
    scanner_fast_probe content =
      (if content.length ≤ 1048576 then content
       else content.take 65536 ++ content.drop (content.length - 65536)) :=
  ⟨service_fast_probe_eq content, scanner_fast_probe_eq content⟩

/-- C7 (refuting): at 128 KiB + 1 bytes — above the claimed 128 KiB
threshold — the scanner probe still hashes the whole content rather
than the first and last 64 KiB. -/
theorem scanner_probe_128k_counterexample :
    131072 < (List.replicate 131073 (7 : Nat)).length ∧
    scanner_fast_probe (List.replicate 131073 7) = List.replicate 131073 7 ∧
    scanner_fast_probe (List.replicate 131073 7)
      ≠ (List.replicate 131073 (7 : Nat)).take 65536 ++
        (List.replicate 131073 (7 : Nat)).drop
          ((List.replicate 131073 (7 : Nat)).length - 65536) := by
  have hlen : (List.replicate 131073 (7 : Nat)).length = 131073 := by
    rw [List.length_replicate]
  have hp : scanner_fast_probe (List.replicate 131073 7)
      = List.replicate 131073 7 := by
    rw [scanner_fast_probe_eq, hlen, if_pos (by norm_num)]
  refine ⟨by rw [hlen]; norm_num, hp, ?_⟩
  rw [hp]
  intro h
  have h2 := congrArg List.length h
  simp only [List.length_append, List.length_take, List.length_drop,
    List.length_replicate] at h2
  omega

/-- The `all` loop is the conjunction over the list. -/
theorem evalAllLoop_eq_all (fi : Record) (cs : List Cond) :
    evalAllLoop fi cs = cs.all (fun c => evaluate_condition c fi) := by
  induction cs with
  | nil => rfl
  | cons c rest ih =>
    cases h : evaluate_condition c fi <;> simp [evalAllLoop, h, ih]

/-- The `any` loop is the disjunction over the list. -/
theorem evalAnyLoop_eq_any (fi : Record) (cs : List Cond) :
    evalAnyLoop fi cs = cs.any (fun c => evaluate_condition c fi) := by
  induction cs with
  | nil => rfl
  | cons c rest ih =>
    cases h : evaluate_condition c fi <;> simp [evalAnyLoop, h, ih]

/-- C4: an `all` tree evaluates to true iff every listed condition
holds (the loop returns false at the first failing condition), an `any`
tree iff some listed condition holds (the loop returns true at the
first succeeding condition), and a `not` tree to the negation of its
condition. -/
theorem evaluate_rule_combinator_semantics (cs : List Cond) (c : Cond)
    (fi : Record) :
    (evaluate_rule (.all cs) fi = cs.all (fun x => evaluate_condition x fi)) ∧
    (evaluate_rule (.all cs) fi = true ↔
      ∀ x ∈ cs, evaluate_condition x fi = true) ∧
    (evaluate_rule (.any cs) fi = cs.any (fun x => evaluate_condition x fi)) ∧
    (evaluate_rule (.any cs) fi = true ↔
      ∃ x ∈ cs, evaluate_condition x fi = true) ∧
    (evaluate_rule (.not c) fi = !evaluate_condition c fi) := by
  refine ⟨evalAllLoop_eq_all fi cs, ?_, evalAnyLoop_eq_any fi cs, ?_, rfl⟩
  · rw [show evaluate_rule (.all cs) fi = evalAllLoop fi cs from rfl,
      evalAllLoop_eq_all]
    simp [List.all_eq_true]
  · rw [show evaluate_rule (.any cs) fi = evalAnyLoop fi cs from rfl,
      evalAnyLoop_eq_any]
    simp [List.any_eq_true]


/-- Witness for C4 at a concrete condition list and record. -/
theorem evaluate_rule_combinator_semantics_witness :
    evaluate_rule (CondTree.all [⟨some "size", some "gt", PyVal.int 100⟩])
        [("size", PyVal.int 200)]
      = ([⟨some "size", some "gt", PyVal.int 100⟩] : List Cond).all
          (fun x => evaluate_condition x [("size", PyVal.int 200)]) ∧
    evaluate_rule (CondTree.not ⟨some "size", some "gt", PyVal.int 100⟩)
        [("size", PyVal.int 200)]
      = !evaluate_condition ⟨some "size", some "gt", PyVal.int 100⟩
          [("size", PyVal.int 200)] :=
  ⟨(evaluate_rule_combinator_semantics
      [⟨some "size", some "gt", PyVal.int 100⟩]
      ⟨some "size", some "gt", PyVal.int 100⟩ [("size", PyVal.int 200)]).1,
   (evaluate_rule_combinator_semantics
      [⟨some "size", some "gt", PyVal.int 100⟩]
      ⟨some "size", some "gt", PyVal.int 100⟩
      [("size", PyVal.int 200)]).2.2.2.2⟩

/-- C10: condition evaluation returns false — rather than raising —
when the field key is absent or empty, when the operator is not in the
dispatch table, and when an ordering comparison raises `TypeError`
(modelled as `pyCmp` returning `Option.none`). -/
theorem evaluate_condition_never_raises (c : Cond) (fi : Record) :
    ((c.field = Option.none ∨ c.field = some "") →
      evaluate_condition c fi = false) ∧
    (condOpHandler (c.op.getD "eq") = Option.none →
      evaluate_condition c fi = false) ∧
    (∀ o, c.op = some o → o ∈ (["gt", "gte", "lt", "lte"] : List String) →
      pyCmp (get_field_value fi (c.field.getD "")) c.value = Option.none →
      evaluate_condition c fi = false) := by
  refine ⟨?_, ?_, ?_⟩
  · intro h
    rcases h with h | h <;> simp [evaluate_condition, h]
  · intro h
    unfold evaluate_condition
    cases hf : c.field with
    | none => simp
    | some f =>
      by_cases hf2 : f = "" <;> simp [hf2, h]
  · intro o ho hmem hcmp
    unfold evaluate_condition
    cases hf : c.field with
    | none => simp
    | some f =>
      by_cases hf2 : f = ""
      · simp [hf2]
      · rw [hf] at hcmp
        simp only [Option.getD_some] at hcmp
        simp only [ho, Option.getD_some, hf2]
        simp only [List.mem_cons, List.not_mem_nil, or_false] at hmem
        rcases hmem with rfl | rfl | rfl | rfl <;>
          simp [condOpHandler, op_gt, op_gte, op_lt, op_lte, hcmp, hf2]

/-- Each call to `execute_actions` yields exactly one result entry per
action, in order, labelled with that action's name. -/
theorem execute_actions_result_names (fi : Record)
    (acts : List ActionSpec) :
    ∀ s : SysState,
      ((execute_actions s fi acts).2).map (fun e => e.action)
        = acts.map (fun a => a.action) := by
  induction acts with
  | nil => intro s; rfl
  | cons a rest ih =>
    intro s
    cases h : actionHandler a.action with
    | none => simp [execute_actions, h, ih]
    | some hh => simp [execute_actions, h, ih]

/-- The rule loop visits every rule: the matched count is the number of
matching rules and the result entries are, in order, one per action of
each matching rule. -/
theorem process_rules_loop_spec (fi : Record) (rules : List RuleSpec) :
    ∀ s : SysState,
      (process_rules_loop s fi rules).2.1
        = (rules.filter (fun r => evaluate_rule r.whenCond fi)).length ∧
      ((process_rules_loop s fi rules).2.2).map (fun e => e.action)
        = ((rules.filter (fun r => evaluate_rule r.whenCond fi)).flatMap
            (fun r => r.thenActions)).map (fun a => a.action) := by
  induction rules with
  | nil => intro s; exact ⟨rfl, rfl⟩
  | cons r rest ih =>
    intro s
    by_cases h : evaluate_rule r.whenCond fi
    · by_cases he : r.thenActions.isEmpty
      · have he2 : r.thenActions = [] := List.isEmpty_iff.mp he
        simp [process_rules_loop, h, he, he2, List.filter_cons, ih,
          Nat.add_comm]
      · simp [process_rules_loop, h, he, List.filter_cons,
          execute_actions_result_names, ih, Nat.add_comm]
    · simp [process_rules_loop, h, List.filter_cons, ih]

/-- C5: `process_file` executes the actions of every matching rule —
not only the first — in rule order then action order, producing one
result entry per executed action labelled with the action name and a
success flag; the summary counts matching rules and executed
actions. -/
theorem apply_runs_all_matching_rules (s : SysState) (fi : Record)
    (rules : List RuleSpec) :
    (rules_process_file s fi rules).2.matched_rules
      = (rules.filter (fun r => evaluate_rule r.whenCond fi)).length ∧
    ((rules_process_file s fi rules).2.results).map (fun e => e.action)
      = ((rules.filter (fun r => evaluate_rule r.whenCond fi)).flatMap
          (fun r => r.thenActions)).map (fun a => a.action) ∧
    (rules_process_file s fi rules).2.executed_actions
      = (rules_process_file s fi rules).2.results.length ∧
    (rules_process_file s fi rules).2.success = true := by
  have h := process_rules_loop_spec fi rules s
  exact ⟨h.1, h.2, rfl, rfl⟩

/-- Witness for C10 at concrete inputs: absent field, unknown
operator, and an int-vs-str ordering comparison. -/
theorem evaluate_condition_never_raises_witness :
    evaluate_condition ⟨Option.none, some "eq", .int 1⟩ [] = false ∧
    evaluate_condition ⟨some "size", some "frobnicate", .int 1⟩ [] = false ∧
    evaluate_condition ⟨some "size", some "gt", .str "a"⟩
      [("size", .int 5)] = false :=
  ⟨(evaluate_condition_never_raises ⟨Option.none, some "eq", .int 1⟩ []).1
      (Or.inl rfl),
   (evaluate_condition_never_raises
      ⟨some "size", some "frobnicate", .int 1⟩ []).2.1 rfl,
   (evaluate_condition_never_raises ⟨some "size", some "gt", .str "a"⟩
      [("size", .int 5)]).2.2 "gt" rfl (by decide) rfl⟩

/-- Appending a fresh attachment row preserves the
at-most-one-row-per-pair invariant. -/
theorem countAttach_append_le (old : List FileTagRow) (row : FileTagRow)
    (hnone : old.find? (fun ft => ft.content_hash == row.content_hash &&
      ft.tag_id == row.tag_id) = Option.none) :
    ∀ ch tid,
      old.countP (fun ft => ft.content_hash == ch && ft.tag_id == tid) ≤ 1 →
      (old ++ [row]).countP
        (fun ft => ft.content_hash == ch && ft.tag_id == tid) ≤ 1 := by
  intro ch tid hle
  rw [List.countP_append]
  by_cases hp : (row.content_hash == ch && row.tag_id == tid) = true
  · obtain ⟨hp1, hp2⟩ := Bool.and_eq_true_iff.mp hp
    have hch := eq_of_beq hp1
    have htid := eq_of_beq hp2
    subst hch
    subst htid
    have hzero : old.countP (fun ft => ft.content_hash == row.content_hash
        && ft.tag_id == row.tag_id) = 0 :=
      List.countP_eq_zero.mpr (List.find?_eq_none.mp hnone)
    have hone : List.countP
        (fun ft => ft.content_hash == row.content_hash &&
          ft.tag_id == row.tag_id) [row] ≤ 1 :=
      List.countP_le_length _
    rw [hzero]
    omega
  · have h0 : List.countP
        (fun ft => ft.content_hash == ch && ft.tag_id == tid) [row] = 0 := by
      rw [List.countP_eq_zero]
      intro a ha
      rw [List.mem_singleton] at ha
      subst ha
      exact hp
    rw [h0]
    omega

/-- Main case of the idempotence of `_add_tag`: with truthy tag name
and content hash, the second application is a no-op with the same
result, and the one-row-per-pair invariant is preserved. -/
theorem add_tag_idempotent_main (s : SysState) (fi args : Record)
    (hn : ¬ pyFalsy (rget args "name" PyVal.none) = true)
    (hc : ¬ pyFalsy (rget fi "content_hash" PyVal.none) = true) :
    add_tag (add_tag s fi args).1 fi args = add_tag s fi args ∧
    (∀ ch tid, countAttach s ch tid ≤ 1 →
      countAttach (add_tag s fi args).1 ch tid ≤ 1) ∧
    (pyFalsy (rget args "name" .none) = false →
      pyFalsy (rget fi "content_hash" .none) = false →
      (add_tag (add_tag s fi args).1 fi args).2 = true) := by
  cases hfound : s.tags.find?
      (fun t => t.name == rget args "name" PyVal.none) with
  | some t =>
    cases hft : s.fileTags.find?
        (fun ft => ft.content_hash == rget fi "content_hash" PyVal.none &&
          ft.tag_id == t.id) with
    | some ft0 =>
      have h1 : add_tag s fi args = (s, true) := by
        simp only [add_tag, hfound, hft]
        rw [if_neg hn, if_neg hc]
      refine ⟨?_, ?_, ?_⟩
      · rw [h1]
        exact h1
      · intro ch tid hle
        rw [h1]
        exact hle
      · intro _ _
        rw [h1]
        exact congrArg Prod.snd h1
    | none =>
      have hfr : List.find?
          (fun ft => ft.content_hash == rget fi "content_hash" PyVal.none &&
            ft.tag_id == t.id)
          (s.fileTags ++
            [⟨rget fi "content_hash" PyVal.none, t.id, "rule",
              rget args "confidence" (.int 1)⟩]) =
          some ⟨rget fi "content_hash" PyVal.none, t.id, "rule",
            rget args "confidence" (.int 1)⟩ := by
        rw [List.find?_append, hft, Option.none_or, List.find?_cons_of_pos]
        simp
      have h1 : add_tag s fi args =
          (⟨s.tags,
            s.fileTags ++
              [⟨rget fi "content_hash" PyVal.none, t.id, "rule",
                rget args "confidence" (.int 1)⟩],
            s.blobs, s.assets, s.fsPaths, s.nextTagId⟩, true) := by
        simp only [add_tag, hfound, hft]
        rw [if_neg hn, if_neg hc]
      have h2 : add_tag
          (⟨s.tags,
            s.fileTags ++
              [⟨rget fi "content_hash" PyVal.none, t.id, "rule",
                rget args "confidence" (.int 1)⟩],
            s.blobs, s.assets, s.fsPaths, s.nextTagId⟩ : SysState) fi args =
          (⟨s.tags,
            s.fileTags ++
              [⟨rget fi "content_hash" PyVal.none, t.id, "rule",
                rget args "confidence" (.int 1)⟩],
            s.blobs, s.assets, s.fsPaths, s.nextTagId⟩, true) := by
        simp only [add_tag, hfound, hfr]
        rw [if_neg hn, if_neg hc]
      refine ⟨?_, ?_, ?_⟩
      · rw [h1]
        exact h2
      · intro ch tid hle
        rw [h1]
        simp only [countAttach]
        exact countAttach_append_le s.fileTags _ (by exact hft) ch tid
          (by exact hle)
      · intro _ _
        rw [h1]
        exact congrArg Prod.snd h2
  | none =>
    cases hft : s.fileTags.find?
        (fun ft => ft.content_hash == rget fi "content_hash" PyVal.none &&
          ft.tag_id == s.nextTagId) with
    | some ft0 =>
      have hfr_tag : List.find?
          (fun t => t.name == rget args "name" PyVal.none)
          (s.tags ++
            [⟨s.nextTagId, rget args "name" PyVal.none, "rule",
              rget args "color" (.str "#2196F3")⟩]) =
          some ⟨s.nextTagId, rget args "name" PyVal.none, "rule",
            rget args "color" (.str "#2196F3")⟩ := by
        rw [List.find?_append, hfound, Option.none_or,
          List.find?_cons_of_pos]
        simp
      have h1 : add_tag s fi args =
          (⟨s.tags ++
              [⟨s.nextTagId, rget args "name" PyVal.none, "rule",
                rget args "color" (.str "#2196F3")⟩],
            s.fileTags, s.blobs, s.assets, s.fsPaths,
            s.nextTagId + 1⟩, true) := by
        simp only [add_tag, hfound, hft]
        rw [if_neg hn, if_neg hc]
      have h2 : add_tag
          (⟨s.tags ++
              [⟨s.nextTagId, rget args "name" PyVal.none, "rule",
                rget args "color" (.str "#2196F3")⟩],
            s.fileTags, s.blobs, s.assets, s.fsPaths,
            s.nextTagId + 1⟩ : SysState) fi args =
          (⟨s.tags ++
              [⟨s.nextTagId, rget args "name" PyVal.none, "rule",
                rget args "color" (.str "#2196F3")⟩],
            s.fileTags, s.blobs, s.assets, s.fsPaths,
            s.nextTagId + 1⟩, true) := by
        simp only [add_tag, hfr_tag, hft]
        rw [if_neg hn, if_neg hc]
      refine ⟨?_, ?_, ?_⟩
      · rw [h1]
        exact h2
      · intro ch tid hle
        rw [h1]
        exact hle
      · intro _ _
        rw [h1]
        exact congrArg Prod.snd h2
    | none =>
      have hfr_tag : List.find?
          (fun t => t.name == rget args "name" PyVal.none)
          (s.tags ++
            [⟨s.nextTagId, rget args "name" PyVal.none, "rule",
              rget args "color" (.str "#2196F3")⟩]) =
          some ⟨s.nextTagId, rget args "name" PyVal.none, "rule",
            rget args "color" (.str "#2196F3")⟩ := by
        rw [List.find?_append, hfound, Option.none_or,
          List.find?_cons_of_pos]
        simp
      have hfr : List.find?
          (fun ft => ft.content_hash == rget fi "content_hash" PyVal.none &&
            ft.tag_id == s.nextTagId)
          (s.fileTags ++
            [⟨rget fi "content_hash" PyVal.none, s.nextTagId, "rule",
              rget args "confidence" (.int 1)⟩]) =
          some ⟨rget fi "content_hash" PyVal.none, s.nextTagId, "rule",
            rget args "confidence" (.int 1)⟩ := by
        rw [List.find?_append, hft, Option.none_or, List.find?_cons_of_pos]
        simp
      have h1 : add_tag s fi args =
          (⟨s.tags ++
              [⟨s.nextTagId, rget args "name" PyVal.none, "rule",
                rget args "color" (.str "#2196F3")⟩],
            s.fileTags ++
              [⟨rget fi "content_hash" PyVal.none, s.nextTagId, "rule",
                rget args "confidence" (.int 1)⟩],
            s.blobs, s.assets, s.fsPaths, s.nextTagId + 1⟩, true) := by
        simp only [add_tag, hfound, hft]
        rw [if_neg hn, if_neg hc]
      have h2 : add_tag
          (⟨s.tags ++
              [⟨s.nextTagId, rget args "name" PyVal.none, "rule",
                rget args "color" (.str "#2196F3")⟩],
            s.fileTags ++
              [⟨rget fi "content_hash" PyVal.none, s.nextTagId, "rule",
                rget args "confidence" (.int 1)⟩],
            s.blobs, s.assets, s.fsPaths,
            s.nextTagId + 1⟩ : SysState) fi args =
          (⟨s.tags ++
              [⟨s.nextTagId, rget args "name" PyVal.none, "rule",
                rget args "color" (.str "#2196F3")⟩],
            s.fileTags ++
              [⟨rget fi "content_hash" PyVal.none, s.nextTagId, "rule",
                rget args "confidence" (.int 1)⟩],
            s.blobs, s.assets, s.fsPaths, s.nextTagId + 1⟩, true) := by
        simp only [add_tag, hfr_tag, hfr]
        rw [if_neg hn, if_neg hc]
      refine ⟨?_, ?_, ?_⟩
      · rw [h1]
        exact h2
      · intro ch tid hle
        rw [h1]
        simp only [countAttach]
        exact countAttach_append_le s.fileTags _ (by exact hft) ch tid
          (by exact hle)
      · intro _ _
        rw [h1]
        exact congrArg Prod.snd h2

/-- C6: `_add_tag` is idempotent — a second application with the same
arguments returns the same success flag and leaves the state exactly as
after the first; the at-most-one-attachment-row invariant for every
`(content_hash, tag_id)` pair is preserved; and with a non-empty tag
name and content hash the second application still reports success. -/
theorem add_tag_idempotent (s : SysState) (fi args : Record) :
    add_tag (add_tag s fi args).1 fi args = add_tag s fi args ∧
    (∀ ch tid, countAttach s ch tid ≤ 1 →
      countAttach (add_tag s fi args).1 ch tid ≤ 1) ∧
    (pyFalsy (rget args "name" .none) = false →
      pyFalsy (rget fi "content_hash" .none) = false →
      (add_tag (add_tag s fi args).1 fi args).2 = true) := by
  by_cases hn : pyFalsy (rget args "name" PyVal.none)
  · have h1 : add_tag s fi args = (s, false) := by
      simp [add_tag, hn]
    refine ⟨?_, ?_, ?_⟩
    · rw [h1]
      exact h1
    · intro ch tid hle
      rw [h1]
      exact hle
    · intro hfalse
      rw [hfalse] at hn
      exact absurd hn (by norm_num)
  · by_cases hc : pyFalsy (rget fi "content_hash" PyVal.none)
    · have h1 : add_tag s fi args = (s, false) := by
        simp [add_tag, hn, hc]
      refine ⟨?_, ?_, ?_⟩
      · rw [h1]
        exact h1
      · intro ch tid hle
        rw [h1]
        exact hle
      · intro _ hfalse
        rw [hfalse] at hc
        exact absurd hc (by norm_num)
    · exact add_tag_idempotent_main s fi args hn hc

/-- C2 (refuting): the compiler interpolates condition values directly
into the SQL text; an `eq` condition on `name` embeds the raw string
value between quotes, so the value is a literal fragment of the
generated SQL — including a classic quote-breaking injection value. -/
theorem parse_condition_interpolates_value :
    parse_condition ⟨some "name", some "eq", .str "abc"⟩
      = "a.full_path = \x27abc\x27" ∧
    isInfixL "abc".data
      (parse_condition ⟨some "name", some "eq", .str "abc"⟩).data = true ∧
    parse_condition ⟨some "name", some "eq", .str "x\x27 OR \x271\x27=\x271"⟩
      = "a.full_path = \x27x\x27 OR \x271\x27=\x271\x27" := by
  refine ⟨rfl, by decide, rfl⟩

/-- C3 (refuting): a condition with an unknown field compiles to a SQL
fragment using the raw field name, and an unknown operator falls back
to `=`; in both cases the result is non-empty, so `create_savedview`
accepts and persists the AST instead of failing with a CompileError. -/
theorem parse_condition_unknown_field_op_fallback :
    svFieldMapping "bogus" = Option.none ∧
    svOperators "frobnicate" = Option.none ∧
    parse_condition ⟨some "bogus", some "eq", .int 5⟩ = "bogus = 5" ∧
    parse_condition ⟨some "name", some "frobnicate", .int 5⟩
      = "a.full_path = 5" ∧
    create_savedview_accepts
      (.single ⟨some "bogus", some "frobnicate", .int 5⟩) = true := by
  refine ⟨rfl, rfl, rfl, rfl, rfl⟩

/-- Witness for C6 at a concrete empty state, tagging content hash
`h1` with tag `large` twice. -/
theorem add_tag_idempotent_witness :
    pyFalsy (rget [("name", PyVal.str "large")] "name" .none) = false ∧
    pyFalsy (rget [("content_hash", PyVal.str "h1")] "content_hash" .none)
      = false ∧
    add_tag (add_tag ⟨[], [], [], [], [], 1⟩
        [("content_hash", PyVal.str "h1")] [("name", PyVal.str "large")]).1
        [("content_hash", PyVal.str "h1")] [("name", PyVal.str "large")]
      = add_tag ⟨[], [], [], [], [], 1⟩
        [("content_hash", PyVal.str "h1")] [("name", PyVal.str "large")] ∧
    countAttach (add_tag ⟨[], [], [], [], [], 1⟩
        [("content_hash", PyVal.str "h1")] [("name", PyVal.str "large")]).1
        (PyVal.str "h1") 1 ≤ 1 ∧
    (add_tag (add_tag ⟨[], [], [], [], [], 1⟩
        [("content_hash", PyVal.str "h1")] [("name", PyVal.str "large")]).1
        [("content_hash", PyVal.str "h1")] [("name", PyVal.str "large")]).2
      = true :=
  ⟨by decide, by decide,
   (add_tag_idempotent ⟨[], [], [], [], [], 1⟩
      [("content_hash", PyVal.str "h1")] [("name", PyVal.str "large")]).1,
   (add_tag_idempotent ⟨[], [], [], [], [], 1⟩
      [("content_hash", PyVal.str "h1")] [("name", PyVal.str "large")]).2.1
      (PyVal.str "h1") 1 (by decide),
   (add_tag_idempotent ⟨[], [], [], [], [], 1⟩
      [("content_hash", PyVal.str "h1")] [("name", PyVal.str "large")]).2.2
      (by decide) (by decide)⟩

/-- First hit of `findIdx?` on a list whose prefix fails the
predicate. -/
theorem findIdx?_append_cons (p : Char → Bool) (a : List Char) (x : Char)
    (b : List Char) (hA : ∀ c ∈ a, p c = false) (hx : p x = true) :
    List.findIdx? p (a ++ x :: b) = some a.length := by
  induction a with
  | nil => simp [List.findIdx?_cons, hx]
  | cons y ys ih =>
    have hy : p y = false := hA y (by simp)
    have hrest : ∀ c ∈ ys, p c = false := fun c hc => hA c (by simp [hc])
    simp [List.findIdx?_cons, hy, ih hrest]

/-- A path without separators is its own final component. -/
theorem baseNameL_of_no_slash (l : List Char) (h : ∀ c ∈ l, c ≠ '/') :
    baseNameL l = l := by
  have h2 : ∀ x ∈ l.reverse, (x != '/') = true := by
    intro x hx
    rw [List.mem_reverse] at hx
    simp [h x hx]
  unfold baseNameL
  rw [List.takeWhile_eq_self_iff.mpr h2, List.reverse_reverse]

/-- `rfind` of the only dot. -/
theorem rfindIdx_single_dot (a b : List Char) (_hA : ∀ c ∈ a, c ≠ '.')
    (hB : ∀ c ∈ b, c ≠ '.') :
    rfindIdx (a ++ '.' :: b) '.' = some a.length := by
  unfold rfindIdx
  have hrev : (a ++ '.' :: b).reverse = b.reverse ++ '.' :: a.reverse := by
    rw [List.reverse_append, List.reverse_cons, List.append_assoc]
    rfl
  have hb2 : ∀ c ∈ b.reverse, ((c == '.') : Bool) = false := by
    intro c hc
    rw [List.mem_reverse] at hc
    simp [hB c hc]
  rw [hrev, findIdx?_append_cons _ _ _ _ hb2 (by simp)]
  simp only [List.length_append, List.length_cons, List.length_reverse,
    Option.some.injEq]
  omega

/-- `PurePath.suffix` of a single-component path with one interior
dot: the dot and everything after it. -/
theorem pathSuffixL_single_dot (a b : List Char)
    (hA : ∀ c ∈ a, c ≠ '.') (hB : ∀ c ∈ b, c ≠ '.')
    (hAs : ∀ c ∈ a, c ≠ '/') (hBs : ∀ c ∈ b, c ≠ '/')
    (ha : a ≠ []) (hb : b ≠ []) :
    pathSuffixL (a ++ '.' :: b) = '.' :: b := by
  have hslash : ∀ c ∈ a ++ '.' :: b, c ≠ '/' := by
    intro c hc
    rcases List.mem_append.mp hc with h1 | h1
    · exact hAs c h1
    · rcases List.mem_cons.mp h1 with h2 | h2
      · rw [h2]; decide
      · exact hBs c h2
  have hA0 : 0 < a.length := List.length_pos.mpr ha
  have hB0 : 0 < b.length := List.length_pos.mpr hb
  unfold pathSuffixL
  simp only []
  rw [baseNameL_of_no_slash _ hslash, rfindIdx_single_dot a b hA hB]
  simp only []
  have hcond : (decide (0 < a.length) &&
      decide (a.length < (a ++ '.' :: b).length - 1)) = true := by
    simp only [Bool.and_eq_true, decide_eq_true_eq, List.length_append,
      List.length_cons]
    omega
  rw [hcond, if_pos rfl, List.drop_left']
  rfl

/-- The compiled SQL extension of a path whose only dot sits before
`b`: the lowercased remainder after that first dot. -/
theorem sql_extension_chars_single_dot (a b : List Char)
    (hA : ∀ c ∈ a, c ≠ '.') :
    sql_extension_chars (a ++ '.' :: b) = toLowerL b := by
  have hA2 : ∀ c ∈ a, ((c == '.') : Bool) = false := by
    intro c hc
    simp [hA c hc]
  unfold sql_extension_chars
  rw [findIdx?_append_cons _ _ _ _ hA2 (by simp)]
  simp only []
  rw [@List.drop_append Char a ('.' :: b) 1]
  rfl

/-- C8 (amended): on a single-component path `a.b` with exactly one
interior dot, the query compiler evaluates `extension` to the lowercase
text after the dot, while the rule engine evaluates it to the lowercase
`pathlib` suffix, which keeps the leading dot; the two are never
equal.  (In general the compiler splits at the first dot of the whole
path and the engine at the last dot of the final component.) -/
theorem extension_compiler_vs_engine (a b : List Char)
    (hA : ∀ c ∈ a, c ≠ '.') (hB : ∀ c ∈ b, c ≠ '.')
    (hAs : ∀ c ∈ a, c ≠ '/') (hBs : ∀ c ∈ b, c ≠ '/')
    (ha : a ≠ []) (hb : b ≠ []) :
    sql_extension_chars (a ++ '.' :: b) = toLowerL b ∧
    pathSuffixL (a ++ '.' :: b) = '.' :: b ∧
    toLowerL (pathSuffixL (a ++ '.' :: b)) = '.' :: toLowerL b ∧
    sql_extension_chars (a ++ '.' :: b)
      ≠ toLowerL (pathSuffixL (a ++ '.' :: b)) := by
  have h1 := sql_extension_chars_single_dot a b hA
  have h2 := pathSuffixL_single_dot a b hA hB hAs hBs ha hb
  have h3 : toLowerL (pathSuffixL (a ++ '.' :: b)) = '.' :: toLowerL b := by
    rw [h2]
    show toLowerL ('.' :: b) = '.' :: toLowerL b
    unfold toLowerL
    rw [List.map_cons]
    congr 1
  refine ⟨h1, h2, h3, ?_⟩
  rw [h1, h3]
  intro hcon
  have hlen := congrArg List.length hcon
  simp only [toLowerL, List.length_map, List.length_cons] at hlen
  omega

/-- Witness for C8 (amended) on the path `file.GZ`. -/
theorem extension_compiler_vs_engine_witness :
    sql_extension_chars (("file".data) ++ '.' :: ("GZ".data))
      = toLowerL ("GZ".data) ∧
    toLowerL (pathSuffixL (("file".data) ++ '.' :: ("GZ".data)))
      = '.' :: toLowerL ("GZ".data) ∧
    sql_extension_chars (("file".data) ++ '.' :: ("GZ".data))
      ≠ toLowerL (pathSuffixL (("file".data) ++ '.' :: ("GZ".data))) :=
  ⟨(extension_compiler_vs_engine "file".data "GZ".data (by decide)
      (by decide) (by decide) (by decide) (by decide) (by decide)).1,
   (extension_compiler_vs_engine "file".data "GZ".data (by decide)
      (by decide) (by decide) (by decide) (by decide) (by decide)).2.2.1,
   (extension_compiler_vs_engine "file".data "GZ".data (by decide)
      (by decide) (by decide) (by decide) (by decide) (by decide)).2.2.2⟩

/-- C8 (refuting): on `data/archive.tar.gz` the spec's reading
(lowercase text after the last dot) is `gz`, but the compiled SQL
yields `tar.gz` (first dot of the whole path) and the rule engine
yields `.gz` (pathlib suffix with its dot); all three disagree. -/
theorem extension_semantics_counterexample :
    spec_extension "data/archive.tar.gz" = "gz" ∧
    sql_extension "data/archive.tar.gz" = "tar.gz" ∧
    rules_extension "data/archive.tar.gz" = ".gz" ∧
    sql_extension "data/archive.tar.gz"
      ≠ spec_extension "data/archive.tar.gz" ∧
    rules_extension "data/archive.tar.gz"
      ≠ spec_extension "data/archive.tar.gz" ∧
    sql_extension "data/archive.tar.gz"
      ≠ rules_extension "data/archive.tar.gz" := by
  refine ⟨?_, ?_, ?_, ?_, ?_, ?_⟩ <;> decide

/-- Unfolding of `export_symlinks` for a non-empty result page. -/
theorem export_symlinks_eq (fs : List String) (dir : String)
    (allRows : List ViewRow) (h : (allRows.drop 0).take 10000 ≠ []) :
    export_symlinks fs dir allRows =
      { success := true, manifestWritten := true,
        total_files := ((allRows.drop 0).take 10000).length,
        created_links :=
          (exportLoop fs dir ((allRows.drop 0).take 10000)).2.1.length,
        failed_links :=
          (exportLoop fs dir ((allRows.drop 0).take 10000)).2.2.length,
        createdList := (exportLoop fs dir ((allRows.drop 0).take 10000)).2.1,
        errorList :=
          (exportLoop fs dir ((allRows.drop 0).take 10000)).2.2 } := by
  simp only [export_symlinks, execute_savedview]
  rw [if_neg (by simpa using h)]

/-- Every processed file contributes exactly one outcome: created plus
failed counts equal the file count. -/
theorem exportLoop_count (dir : String) (rows : List ViewRow) :
    ∀ fs, (exportLoop fs dir rows).2.1.length +
      (exportLoop fs dir rows).2.2.length = rows.length := by
  induction rows with
  | nil => intro fs; rfl
  | cons r rest ih =>
    intro fs
    by_cases hr : r.full_path ∈ fs
    · simp only [exportLoop, if_pos hr, List.length_cons]
      have h2 := ih (exportTarget fs dir r.full_path :: fs)
      omega
    · simp only [exportLoop, if_neg hr, List.length_cons]
      have h2 := ih fs
      omega

/-- C9 (amended): with at least one matching row, the export completes
and writes the manifest; each of the (at most 10000) exported rows
yields exactly one outcome, so created + failed = total_files; and
total_files is the match count capped at the 10000-row limit, not the
unpaginated count. -/
theorem export_accounting (fs : List String) (dir : String)
    (allRows : List ViewRow) (h : allRows ≠ []) :
    (export_symlinks fs dir allRows).success = true ∧
    (export_symlinks fs dir allRows).manifestWritten = true ∧
    (export_symlinks fs dir allRows).created_links +
        (export_symlinks fs dir allRows).failed_links
      = (export_symlinks fs dir allRows).total_files ∧
    (export_symlinks fs dir allRows).total_files
      = min 10000 allRows.length := by
  have hne : (allRows.drop 0).take 10000 ≠ [] := by
    rw [List.drop_zero]
    intro hcon
    rcases List.take_eq_nil_iff.mp hcon with h1 | h1
    · norm_num at h1
    · exact h h1
  rw [export_symlinks_eq fs dir allRows hne]
  refine ⟨rfl, rfl, ?_, ?_⟩
  · exact exportLoop_count dir _ fs
  · rw [List.drop_zero, List.length_take]

/-- Witness for C9 (amended): a view matching 3 existing files and one
whose path no longer exists exports 3 links, reports 1 failure, and
3 + 1 = 4 = total_files. -/
theorem export_accounting_witness :
    ([⟨"h1", "/s/a.txt"⟩, ⟨"h2", "/s/b.txt"⟩, ⟨"h3", "/s/c.txt"⟩,
        ⟨"h4", "/s/d.txt"⟩] : List ViewRow) ≠ [] ∧
    (export_symlinks ["/s/a.txt", "/s/b.txt", "/s/c.txt"] "/exp"
        [⟨"h1", "/s/a.txt"⟩, ⟨"h2", "/s/b.txt"⟩, ⟨"h3", "/s/c.txt"⟩,
          ⟨"h4", "/s/d.txt"⟩]).created_links +
      (export_symlinks ["/s/a.txt", "/s/b.txt", "/s/c.txt"] "/exp"
        [⟨"h1", "/s/a.txt"⟩, ⟨"h2", "/s/b.txt"⟩, ⟨"h3", "/s/c.txt"⟩,
          ⟨"h4", "/s/d.txt"⟩]).failed_links
      = (export_symlinks ["/s/a.txt", "/s/b.txt", "/s/c.txt"] "/exp"
        [⟨"h1", "/s/a.txt"⟩, ⟨"h2", "/s/b.txt"⟩, ⟨"h3", "/s/c.txt"⟩,
          ⟨"h4", "/s/d.txt"⟩]).total_files ∧
    (export_symlinks ["/s/a.txt", "/s/b.txt", "/s/c.txt"] "/exp"
        [⟨"h1", "/s/a.txt"⟩, ⟨"h2", "/s/b.txt"⟩, ⟨"h3", "/s/c.txt"⟩,
          ⟨"h4", "/s/d.txt"⟩]).created_links = 3 ∧
    (export_symlinks ["/s/a.txt", "/s/b.txt", "/s/c.txt"] "/exp"
        [⟨"h1", "/s/a.txt"⟩, ⟨"h2", "/s/b.txt"⟩, ⟨"h3", "/s/c.txt"⟩,
          ⟨"h4", "/s/d.txt"⟩]).failed_links = 1 :=
  ⟨by decide,
   (export_accounting ["/s/a.txt", "/s/b.txt", "/s/c.txt"] "/exp"
      [⟨"h1", "/s/a.txt"⟩, ⟨"h2", "/s/b.txt"⟩, ⟨"h3", "/s/c.txt"⟩,
        ⟨"h4", "/s/d.txt"⟩] (by decide)).2.2.1,
   by decide, by decide⟩

/-- C9 (refuting): the export is not unpaginated — a view matching
10001 rows exports a manifest with total_files = 10000 — and an empty
result aborts without writing any manifest. -/
theorem export_pagination_counterexample :
    (export_symlinks [] "/exp"
        (List.replicate 10001 ⟨"h", "/src/a.txt"⟩)).total_files = 10000 ∧
    (List.replicate 10001 (⟨"h", "/src/a.txt"⟩ : ViewRow)).length
      = 10001 ∧
    (export_symlinks ["/x"] "/exp" ([] : List ViewRow)).manifestWritten
      = false := by
  have hne : ((List.replicate 10001
      (⟨"h", "/src/a.txt"⟩ : ViewRow)).drop 0).take 10000 ≠ [] := by
    rw [List.drop_zero]
    intro hcon
    rcases List.take_eq_nil_iff.mp hcon with h1 | h1
    · norm_num at h1
    · have h2 := congrArg List.length h1
      rw [List.length_replicate] at h2
      norm_num at h2
  refine ⟨?_, by rw [List.length_replicate], rfl⟩
  rw [export_symlinks_eq _ _ _ hne, List.drop_zero, List.length_take,
    List.length_replicate]
  norm_num

end MFOSS
